import Mathlib

/-!
Shallow embedding of the MC2v1 image-codec core (`compressor/core.py` of
the Rapid-Zip repository): the byte-level container serialisation, the
zig-zag permutation, the quantisation-matrix builder, the residual
quantisation step, and the decoder pipeline.  External collaborators that
are not part of the repository (the PIL raster library, scipy's 1-D DCT
kernels, zlib, numpy's archive loader) are abstracted as function
parameters at the points where the repository code calls into them;
everything else is translated directly from the source.

Numeric conventions: Python byte strings become `List Nat` (each entry a
byte value), machine integers become `Nat`/`Int` with explicit `% 2^w`
where the source wraps, and the floating-point intermediates of the
quantisation pipeline are modelled over `ℚ` (the facts proved about them
are exact at the rationals involved, e.g. halves and small integers,
which are exactly representable in the source's binary floats).
-/

namespace MC2

/-- Big-endian base-256 digits of `v`, `n` bytes, most significant first.
Models the integer fields of `struct.pack` (`">I"` with `n = 4`,
`">Q"` with `n = 8`, `"B"` with `n = 1`). -/
def beBytes : Nat → Nat → List Nat
  | 0, _ => []
  | n + 1, v => beBytes n (v / 256) ++ [v % 256]

/-- Big-endian integer value of a byte list; models the integer fields of
`struct.unpack`. -/
def beValue (bs : List Nat) : Nat :=
  bs.foldl (fun acc b => acc * 256 + b) 0

/-- `struct.pack` raises `struct.error` when a value does not fit its
field; `packBE` returns `none` in that case. -/
def packBE (n v : Nat) : Option (List Nat) :=
  if v < 256 ^ n then some (beBytes n v) else none

/-- The magic bytes `b"MC2v1"` (`core.py` line 13). -/
def MAGIC : List Nat := [77, 67, 50, 118, 49]

/-- Parsed header record, the dict returned by `_unpack_header`. -/
structure Header where
  w : Nat
  h : Nat
  channels : Nat
  block_size : Nat
  down : Nat
  quality : Nat
  base_len : Nat
  deriving DecidableEq, Repr

/-- `_pack_header` (`core.py` lines 74–76):
`MAGIC + struct.pack(">II4B Q", w, h, channels, block_size, down, quality, base_len)`.
`struct.pack` is all-or-nothing: it raises `struct.error` (modelled by
`none`) if any field is out of range, and writes every field big-endian. -/
def packHeader (w h channels block_size down quality base_len : Nat) :
    Option (List Nat) :=
  if w < 256 ^ 4 ∧ h < 256 ^ 4 ∧ channels < 256 ∧ block_size < 256 ∧
      down < 256 ∧ quality < 256 ∧ base_len < 256 ^ 8 then
    some (MAGIC ++ beBytes 4 w ++ beBytes 4 h ++ beBytes 1 channels ++
      beBytes 1 block_size ++ beBytes 1 down ++ beBytes 1 quality ++
      beBytes 8 base_len)
  else none

/-- Python `f.read(n)` on an in-memory stream: up to `n` bytes plus the
rest of the stream; a short read is not an error. -/
def readBytes (n : Nat) (s : List Nat) : List Nat × List Nat :=
  (s.take n, s.drop n)

/-- Field extraction of `struct.unpack(">II4B Q", buf)`: two big-endian
32-bit words, four single bytes, one big-endian 64-bit word, in order. -/
def unpackFields (buf : List Nat) : Header :=
  let (w4, r1) := readBytes 4 buf
  let (h4, r2) := readBytes 4 r1
  let (c1, r3) := readBytes 1 r2
  let (b1, r4) := readBytes 1 r3
  let (d1, r5) := readBytes 1 r4
  let (q1, r6) := readBytes 1 r5
  let (l8, _) := readBytes 8 r6
  { w := beValue w4, h := beValue h4, channels := beValue c1,
    block_size := beValue b1, down := beValue d1, quality := beValue q1,
    base_len := beValue l8 }

/-- `_unpack_header` (`core.py` lines 78–84): read 5 magic bytes and
compare against `MAGIC`, then read and unpack the 20-byte fixed part
(`struct.unpack` raises on a buffer that is not exactly 20 bytes).
Returns the header together with the unread remainder of the stream. -/
def unpackHeader (s : List Nat) : Except String (Header × List Nat) :=
  let (magic, s1) := readBytes MAGIC.length s
  if magic ≠ MAGIC then
    Except.error "Not an MC2v1 file"
  else
    let (buf, s2) := readBytes 20 s1
    if buf.length = 20 then
      Except.ok (unpackFields buf, s2)
    else
      Except.error "unpack requires a buffer of 20 bytes"

/-- The encoder's final container assembly (`compress_image`,
`core.py` lines 149–157): header, raw base-layer bytes, 8-byte big-endian
payload length, payload.  `channels = 3` (line 95) and `block_size = 8`
(line 113); `base_len` in the header is `len(base_bytes)` (line 103). -/
def muxContainer (w h down quality : Nat) (base payload : List Nat) :
    Option (List Nat) := do
  let hdr ← packHeader w h 3 8 down quality base.length
  let pl8 ← packBE 8 payload.length
  return hdr ++ base ++ pl8 ++ payload

/-- `_ZIGZAG_IDX` (`core.py` lines 35–44), the literal 64-entry table. -/
def ZIGZAG_IDX : List Nat :=
  [0, 1, 5, 6, 14, 15, 27, 28,
   2, 4, 7, 13, 16, 26, 29, 42,
   3, 8, 12, 17, 25, 30, 41, 43,
   9, 11, 18, 24, 31, 40, 44, 53,
   10, 19, 23, 32, 39, 45, 52, 54,
   20, 22, 33, 38, 46, 51, 55, 60,
   21, 34, 37, 47, 50, 56, 59, 61,
   35, 36, 48, 49, 57, 58, 62, 63]

/-- `np.argsort`: the indices of `l` ordered by increasing value.  The
source applies it to `_ZIGZAG_IDX`, a permutation with pairwise-distinct
entries, where every correct sort produces the same answer, namely the
inverse permutation. -/
def argsort (l : List Nat) : List Nat :=
  (List.range l.length).insertionSort (fun i j => l.getD i 0 ≤ l.getD j 0)

/-- `_ZIGZAG_POS = np.argsort(_ZIGZAG_IDX)` (`core.py` line 46). -/
def ZIGZAG_POS : List Nat := argsort ZIGZAG_IDX

/-- `ZIGZAG_POS` as a function on positions (total because every entry of
`ZIGZAG_POS` is `< 64`, checked by `decide`). -/
def zigzagPosFin (k : Fin 64) : Fin 64 :=
  ⟨ZIGZAG_POS.getD k.val 0, by revert k; decide⟩

/-- Index of `i` inside `ZIGZAG_POS`; since `ZIGZAG_POS` is a duplicate-free
permutation of `0..63`, this is its inverse as a function. -/
def zigzagInvFin (i : Fin 64) : Fin 64 :=
  ⟨ZIGZAG_POS.indexOf i.val, by revert i; decide⟩

/-- numpy gather `v[_ZIGZAG_POS]` on a 64-vector (`core.py` line 131):
`out[k] = v[ZIGZAG_POS[k]]`. -/
def zigzagGather (v : Fin 64 → ℤ) : Fin 64 → ℤ :=
  fun k => v (zigzagPosFin k)

/-- numpy scatter `q[_ZIGZAG_POS] = flat` on a 64-vector
(`core.py` line 211): the unique `q` with `q[ZIGZAG_POS[k]] = flat[k]`
for all `k` (every cell is assigned exactly once because `ZIGZAG_POS` is
duplicate-free), i.e. `q[i] = flat[indexOf i ZIGZAG_POS]`. -/
def zigzagScatter (v : Fin 64 → ℤ) : Fin 64 → ℤ :=
  fun i => v (zigzagInvFin i)

/-- `_Q50` (`core.py` lines 23–32), the literal 8×8 base quantisation
matrix, row-major. -/
def Q50 : List (List ℚ) :=
  [[16, 11, 10, 16, 24, 40, 51, 61],
   [12, 12, 14, 19, 26, 58, 60, 55],
   [14, 13, 16, 24, 40, 57, 69, 56],
   [14, 17, 22, 29, 51, 87, 80, 62],
   [18, 22, 37, 56, 68, 109, 103, 77],
   [24, 35, 55, 64, 81, 104, 113, 92],
   [49, 64, 78, 87, 103, 121, 120, 101],
   [72, 92, 95, 98, 112, 100, 103, 99]]

/-- `np.round` / `np.rint` on a scalar: round to nearest, exact halves to
the nearest even integer (IEEE round-half-to-even, numpy's documented
behaviour).  Modelled over `ℚ`; the inputs the theorems below evaluate it
at (integers and exact halves) are exactly representable in the source's
binary floats, so the model agrees with the float computation there. -/
def npRound (x : ℚ) : ℤ :=
  if x - ⌊x⌋ < 1 / 2 then ⌊x⌋
  else if 1 / 2 < x - ⌊x⌋ then ⌊x⌋ + 1
  else if Even ⌊x⌋ then ⌊x⌋ else ⌊x⌋ + 1

/-- `np.clip(x, lo, hi)` on a scalar. -/
def npClip (lo hi x : ℚ) : ℚ := max lo (min hi x)

/-- The spec's claimed rounding convention, for comparison: round half
away from zero. -/
def roundHalfAwaySpec (x : ℚ) : ℤ :=
  if 0 ≤ x then ⌊x + 1 / 2⌋ else ⌈x - 1 / 2⌉

/-- `quality` scaling factor of `quant_matrix` (`core.py` lines 51–54):
`50.0 / quality` below 50, else `2.0 - quality / 50.0`. -/
def quantScale (quality : ℤ) : ℚ :=
  if quality < 50 then 50 / (quality : ℚ) else 2 - (quality : ℚ) / 50

/-- `quant_matrix` (`core.py` lines 48–56):
`np.clip(np.round(Q50 * scale), 1, 255)`, elementwise. -/
def quant_matrix (quality : ℤ) : List (List ℚ) :=
  Q50.map (fun row => row.map (fun x =>
    npClip 1 255 ((npRound (x * quantScale quality) : ℤ) : ℚ)))

/-- `astype(np.int16)` on an integral value: two's-complement truncation
into `[-32768, 32767]` (numpy wraps out-of-range values modulo `2^16`). -/
def toInt16 (z : ℤ) : ℤ := (z + 32768) % 65536 - 32768

/-- The per-block quantisation step of the encoder (`core.py` line 129):
`q = np.round(d / Q).astype(np.int16)`, elementwise on the DCT output
`d` and the quantisation matrix `Q`. -/
def quantizeBlock (d Qm : Fin 8 → Fin 8 → ℚ) : Fin 8 → Fin 8 → ℤ :=
  fun i j => toInt16 (npRound (d i j / Qm i j))

/-- Statistics record returned by `decompress_file` (`core.py` line 237). -/
structure DecodeStats where
  w : Nat
  h : Nat
  down : Nat
  quality : Nat
  recon_bytes : Nat
  deriving DecidableEq, Repr

/-- The external collaborators `decompress_file` calls into, none of them
code of this repository: zlib inflation, the numpy `.npz` archive loader
(yielding the three coefficient arrays as row lists), PIL image decoding
(`Image.open(...).convert("RGB")`), PIL bicubic resampling to `(w, h)`
composed with `np.asarray(..., float32)`, the scipy inverse 2-D DCT on an
8×8 block, and the PIL PNG encoder for the final raster. -/
structure DecodeExternals (Img : Type) where
  zlibDecompress : List Nat → Except String (List Nat)
  npLoad : List Nat →
    Except String (List (List ℤ) × List (List ℤ) × List (List ℤ))
  pilOpenRGB : List Nat → Except String Img
  pilResizeBicubic : Img → Nat → Nat → Nat → Nat → Fin 3 → ℚ
  idct2 : (Fin 8 → Fin 8 → ℚ) → Fin 8 → Fin 8 → ℚ
  pngEncode : (Nat → Nat → Fin 3 → Nat) → Nat → Nat → List Nat

/-- The decoder quantisation matrix `Q = quant_matrix(quality)`
(`core.py` line 196) viewed as an 8×8 function. -/
def quantFun (quality : ℤ) : Fin 8 → Fin 8 → ℚ :=
  fun i j => ((quant_matrix quality).getD i.val []).getD j.val 0

/-- `rebuild_channel` (`core.py` lines 201–218): walk the padded
reconstruction buffer in blocks of `block_size`, inverse-zigzag the next
64-entry coefficient row, dequantise by the elementwise product with `Q`,
apply the inverse DCT and write an 8×8 slice; block `(i, j)` consumes row
`idx = (i/bs) * blocks_per_row + (j/bs)`.  The written slice is always
8×8 (hard-coded) while the loop steps by `block_size`, so for
`block_size < 8` a cell is written by several blocks and the loop order
makes the block containing the cell win last, and for `block_size > 8` a
cell whose offset inside its block is ≥ 8 keeps the zero initialisation.
The caller crops to `(h, w)` by reading only `y < h`, `x < w`.  numpy
additionally raises on right/bottom-edge blocks when `block_size < 8`
(target slice narrower than 8) and on a missing coefficient row; those
error paths are modelled as zero-reads and no theorem below relies on
such a container decoding successfully. -/
def rebuild_channel (idct2 : (Fin 8 → Fin 8 → ℚ) → Fin 8 → Fin 8 → ℚ)
    (Qm : Fin 8 → Fin 8 → ℚ) (bs w : Nat) (coef : List (List ℤ)) :
    Nat → Nat → ℚ :=
  fun y x =>
    let bpr := (w + bs - 1) / bs
    if ha : y % bs < 8 then
      if hb : x % bs < 8 then
        let flat := coef.getD (y / bs * bpr + x / bs) []
        let q8 : Fin 8 → Fin 8 → ℚ := fun i j =>
          ((flat.getD (ZIGZAG_POS.indexOf (i.val * 8 + j.val)) 0 : ℤ) : ℚ)
        let d : Fin 8 → Fin 8 → ℚ := fun i j => q8 i j * Qm i j
        idct2 d ⟨y % bs, ha⟩ ⟨x % bs, hb⟩
      else 0
    else 0

/-- The final reconstruction of `decompress_file` (`core.py` lines
229–231): `recon = up_arr + stack(rec_r, rec_g, rec_b, axis=2)`, then
`np.clip(np.round(recon), 0, 255).astype(np.uint8)`.  The clip saturates;
the cast of the resulting integral value in `[0, 255]` is exact. -/
def finalRecon (up : Nat → Nat → Fin 3 → ℚ) (recR recG recB : Nat → Nat → ℚ) :
    Nat → Nat → Fin 3 → Nat :=
  fun y x ch =>
    let res : ℚ :=
      if ch.val = 0 then recR y x else if ch.val = 1 then recG y x
      else recB y x
    (max 0 (min 255 (npRound (up y x ch + res)))).toNat

/-- `decompress_file` after the header (`core.py` lines 181–236): read
`base_len` base-layer bytes, the 8-byte payload length (`struct.unpack`
raises unless exactly 8 bytes remain) and the payload, inflate, load the
three coefficient arrays, rebuild the three residual channels, decode and
bicubically upsample the base layer, then add, round, clip, cast and
PNG-encode.  Of the header only the width, height, block size, quality
and base length are consulted here. -/
def reconstructPng {Img : Type} (E : DecodeExternals Img)
    (w h block_size quality base_len : Nat) (s : List Nat) :
    Except String (List Nat) := do
  let (base_bytes, s2) := readBytes base_len s
  let (pl8, s3) := readBytes 8 s2
  if pl8.length = 8 then do
    let payload := (readBytes (beValue pl8) s3).1
    let arr ← E.zlibDecompress payload
    let (coefR, coefG, coefB) ← E.npLoad arr
    let Qm := quantFun (quality : ℤ)
    let recR := rebuild_channel E.idct2 Qm block_size w coefR
    let recG := rebuild_channel E.idct2 Qm block_size w coefG
    let recB := rebuild_channel E.idct2 Qm block_size w coefB
    let baseImg ← E.pilOpenRGB base_bytes
    let up := E.pilResizeBicubic baseImg w h
    return E.pngEncode (finalRecon up recR recG recB) w h
  else
    Except.error "unpack requires a buffer of 8 bytes"

/-- `decompress_file` (`core.py` lines 169–238): parse and validate the
header, reconstruct the raster, and return the PNG bytes together with
the stats record `{w, h, down, quality, recon_bytes}`. -/
def decompress_file {Img : Type} (E : DecodeExternals Img)
    (data : List Nat) : Except String (List Nat × DecodeStats) := do
  let (hd, s1) ← unpackHeader data
  let png ← reconstructPng E hd.w hd.h hd.block_size hd.quality hd.base_len s1
  return (png, { w := hd.w, h := hd.h, down := hd.down, quality := hd.quality, recon_bytes := png.length })

/-- A concrete, trivially-behaved instantiation of the decoder externals,
used to evaluate the decoder on concrete containers: inflation and the
loaders succeed with fixed outputs, the inverse DCT is the identity and
the PNG encoder returns the empty byte string. -/
def trivialExternals : DecodeExternals Unit where
  zlibDecompress := fun _ => Except.ok []
  npLoad := fun _ => Except.ok ([], [], [])
  pilOpenRGB := fun _ => Except.ok ()
  pilResizeBicubic := fun _ _ _ => fun _ _ _ => 0
  idct2 := fun d => d
  pngEncode := fun _ _ _ => []

/-- File-system state, modelled functionally: a map from paths to file
contents.  `compress_image` reads the input raster from it and writes the
container to it. -/
def FileSystem : Type := String → Option (List Nat)

/-- The content of `path` after a write (`open(path, "wb")` followed by
the `write` calls of the with-block). -/
def fsWrite (fs : FileSystem) (path : String) (content : List Nat) :
    FileSystem :=
  fun p => if p = path then some content else fs p

/-- Statistics record returned by `compress_image`
(`core.py` lines 159–165). -/
structure EncodeStats where
  original_bytes : Nat
  base_bytes : Nat
  payload_bytes : Nat
  out_bytes : Nat
  w : Nat
  h : Nat
  down : Nat
  quality : Nat
  deriving DecidableEq, Repr

/-- The external collaborators `compress_image` calls into, none of them
code of this repository: PIL image decoding (`Image.open(...).convert("RGB")`,
fed with the bytes the path refers to), `im.size`, Lanczos and bicubic
resampling, the PIL PNG encoder, `np.asarray(..., float32)`, the scipy
forward 2-D DCT on an 8×8 block, `np.savez_compressed` over the three
named coefficient arrays, and `zlib.compress(..., 6)`.  These are total
here; a PIL failure on degenerate sizes would make the source fail
before any write, like the modelled `pilOpenRGB` failure. -/
structure EncodeExternals (Img : Type) where
  pilOpenRGB : List Nat → Except String Img
  imgSize : Img → Nat × Nat
  resizeLanczos : Img → Nat → Nat → Img
  pngBytesOf : Img → List Nat
  resizeBicubic : Img → Nat → Nat → Img
  imgArr : Img → Nat → Nat → Fin 3 → ℚ
  dct2 : (Fin 8 → Fin 8 → ℚ) → Fin 8 → Fin 8 → ℚ
  savez : List (List ℤ) → List (List ℤ) → List (List ℤ) → List Nat
  zlibCompress : List Nat → List Nat

/-- `out_path = path.rsplit(".", 1)[0] + "_mc2.mcmp2"` (`core.py`
line 150): everything before the last dot (the whole path when it has no
dot), then the fixed suffix. -/
def outPathOf (path : String) : String :=
  let cs := path.toList
  let stem :=
    if cs.contains '.' then
      (cs.reverse.drop (cs.reverse.indexOf '.' + 1)).reverse
    else cs
  String.mk (stem ++ ("_mc2.mcmp2").toList)

/-- The per-channel residual pipeline of the encoder (`core.py` lines
118–133): `_blockify` tiles the channel into 8×8 blocks in row-major
block order with zero padding on the right/bottom (lines 58–67), each
block is DCT-transformed, quantised (`quantizeBlock`) and flattened in
zig-zag order (`q.flatten()[_ZIGZAG_POS]`, i.e. entry `k` reads the
quantised block at row `ZIGZAG_POS[k] / 8`, column `ZIGZAG_POS[k] % 8`);
block `(bi, bj)` becomes row `bi * blocks_per_row + bj` of the `(N, 64)`
coefficient array. -/
def encodeChannelCoefs (dct2 : (Fin 8 → Fin 8 → ℚ) → Fin 8 → Fin 8 → ℚ)
    (Qm : Fin 8 → Fin 8 → ℚ) (W H : Nat) (chan : Nat → Nat → ℚ) :
    List (List ℤ) :=
  let bpr := (W + 8 - 1) / 8
  let bpc := (H + 8 - 1) / 8
  (List.range (bpc * bpr)).map (fun idx =>
    let bi := idx / bpr
    let bj := idx % bpr
    let blk : Fin 8 → Fin 8 → ℚ := fun a b =>
      if 8 * bi + a.val < H ∧ 8 * bj + b.val < W then
        chan (8 * bi + a.val) (8 * bj + b.val)
      else 0
    let qz := quantizeBlock (dct2 blk) Qm
    (List.range 64).map (fun k =>
      let p := ZIGZAG_POS.getD k 0
      qz ⟨p / 8 % 8, by omega⟩ ⟨p % 8, by omega⟩))

/-- `compress_image` (`core.py` lines 88–166), with the file system
passed explicitly: open and decode the raster at `path`, build the
Lanczos-downsampled base layer and its PNG bytes, compute the bicubic
upsampled base and the residual, quantise the three channels, serialise
and deflate them, and write header, base bytes, payload length and
payload to the derived output path.  The result pairs the file system
after the call with the returned `(out_path, stats)` or the raised
error.  The source opens (and thereby creates, empty) the output file
before packing the header inside the with-block, so a `struct.error`
while packing leaves an empty file and a failing length pack would leave
header and base bytes; both partial-write states are modelled.  All
other failures occur before the output file is opened. -/
def compress_image {Img : Type} (E : EncodeExternals Img) (fs : FileSystem)
    (path : String) (quality down : Nat) :
    FileSystem × Except String (String × EncodeStats) :=
  match fs path with
  | none => (fs, Except.error "FileNotFoundError")
  | some inBytes =>
    match E.pilOpenRGB inBytes with
    | Except.error e => (fs, Except.error e)
    | Except.ok im =>
      let (orig_w, orig_h) := E.imgSize im
      if down = 0 then
        (fs, Except.error "ZeroDivisionError: integer division by zero")
      else
        let base := E.resizeLanczos im (orig_w / down) (orig_h / down)
        let base_bytes := E.pngBytesOf base
        let up_base := E.resizeBicubic base orig_w orig_h
        let residual : Nat → Nat → Fin 3 → ℚ := fun y x ch =>
          E.imgArr im y x ch - E.imgArr up_base y x ch
        let Qm := quantFun (quality : ℤ)
        let coefR := encodeChannelCoefs E.dct2 Qm orig_w orig_h
          (fun y x => residual y x 0)
        let coefG := encodeChannelCoefs E.dct2 Qm orig_w orig_h
          (fun y x => residual y x 1)
        let coefB := encodeChannelCoefs E.dct2 Qm orig_w orig_h
          (fun y x => residual y x 2)
        let arr_bytes := E.savez coefR coefG coefB
        let payload := E.zlibCompress arr_bytes
        let out := outPathOf path
        match packHeader orig_w orig_h 3 8 down quality base_bytes.length with
        | none => (fsWrite fs out [], Except.error "struct.error")
        | some hdr =>
          match packBE 8 payload.length with
          | none => (fsWrite fs out (hdr ++ base_bytes), Except.error "struct.error")
          | some pl8 =>
            let container := hdr ++ base_bytes ++ pl8 ++ payload
            let fs2 := fsWrite fs out container
            (fs2, Except.ok (out, { original_bytes := ((fs2 path).getD []).length, base_bytes := base_bytes.length, payload_bytes := payload.length, out_bytes := ((fs2 out).getD []).length, w := orig_w, h := orig_h, down := down, quality := quality }))

/-- A concrete, trivially-behaved instantiation of the encoder externals,
used to evaluate the encoder on concrete inputs: decoding succeeds, the
image is 0×0 (so the coefficient lists are empty), the PNG encoder
returns the empty byte string and deflate is the identity. -/
def trivialEncodeExternals : EncodeExternals Unit where
  pilOpenRGB := fun _ => Except.ok ()
  imgSize := fun _ => (0, 0)
  resizeLanczos := fun _ _ _ => ()
  pngBytesOf := fun _ => []
  resizeBicubic := fun _ _ _ => ()
  imgArr := fun _ _ _ _ => 0
  dct2 := fun d => d
  savez := fun _ _ _ => []
  zlibCompress := fun b => b

/-- A one-file file system holding the input raster `"a.png"`. -/
def oneFileFs : FileSystem :=
  fun p => if p = "a.png" then some [1] else none

-- ---------------------------------------------------------------------
-- Theorems
-- ---------------------------------------------------------------------

theorem length_beBytes (n v : Nat) : (beBytes n v).length = n := by
  induction n generalizing v with
  | zero => rfl
  | succ n ih => simp [beBytes, ih]

theorem beValue_append_singleton (bs : List Nat) (b : Nat) :
    beValue (bs ++ [b]) = beValue bs * 256 + b := by
  simp [beValue, List.foldl_append]

theorem beValue_beBytes_mod (n v : Nat) :
    beValue (beBytes n v) = v % 256 ^ n := by
  induction n generalizing v with
  | zero => simp [beBytes, beValue, Nat.mod_one]
  | succ n ih =>
      rw [beBytes, beValue_append_singleton, ih, pow_succ,
        mul_comm ((256 : Nat) ^ n) 256, Nat.mod_mul]
      ring

theorem beValue_beBytes (n v : Nat) (h : v < 256 ^ n) :
    beValue (beBytes n v) = v := by
  rw [beValue_beBytes_mod, Nat.mod_eq_of_lt h]

theorem take_append_of_length {α : Type} (a b : List α) (n : Nat)
    (h : a.length = n) : (a ++ b).take n = a := by
  subst h; exact List.take_left a b

theorem drop_append_of_length {α : Type} (a b : List α) (n : Nat)
    (h : a.length = n) : (a ++ b).drop n = b := by
  subst h; exact List.drop_left a b

theorem unpackHeader_packHeader (w h c b d q bl : Nat) (hdr rest : List Nat)
    (hp : packHeader w h c b d q bl = some hdr) :
    hdr.length = 25 ∧ hdr.take 5 = MAGIC ∧
      unpackHeader (hdr ++ rest) =
        Except.ok (⟨w, h, c, b, d, q, bl⟩, rest) := by
  rw [packHeader] at hp
  split at hp
  case isFalse => exact absurd hp (by simp)
  case isTrue hrange =>
    obtain ⟨hw, hh, hc, hb, hd, hq, hbl⟩ := hrange
    have hhdr := (Option.some_inj.mp hp).symm
    -- regroup the header as MAGIC ++ (20-byte fixed part)
    set A : List Nat := beBytes 4 w ++ (beBytes 4 h ++ (beBytes 1 c ++
      (beBytes 1 b ++ (beBytes 1 d ++ (beBytes 1 q ++ beBytes 8 bl))))) with hA
    have hgroup : hdr = MAGIC ++ A := by
      rw [hhdr, hA]; simp [List.append_assoc]
    have hAlen : A.length = 20 := by
      rw [hA]; simp [length_beBytes]
    have hlen : hdr.length = 25 := by
      rw [hgroup]; simp [hAlen, MAGIC]
    have htake : hdr.take 5 = MAGIC := by
      rw [hgroup]; exact take_append_of_length _ _ _ rfl
    refine ⟨hlen, htake, ?_⟩
    have e1 : List.take MAGIC.length (MAGIC ++ A ++ rest) = MAGIC := by
      rw [List.append_assoc]; exact take_append_of_length _ _ _ rfl
    have e2 : List.drop MAGIC.length (MAGIC ++ A ++ rest) = A ++ rest := by
      rw [List.append_assoc]; exact drop_append_of_length _ _ _ rfl
    rw [hgroup, unpackHeader]
    simp only [readBytes, e1, e2,
      take_append_of_length A rest 20 hAlen,
      drop_append_of_length A rest 20 hAlen]
    rw [if_neg (by simp), if_pos hAlen]
    congr 1
    refine Prod.ext ?_ rfl
    rw [unpackFields, hA]
    simp only [readBytes]
    rw [take_append_of_length _ _ _ (length_beBytes 4 w),
      drop_append_of_length _ _ _ (length_beBytes 4 w),
      take_append_of_length _ _ _ (length_beBytes 4 h),
      drop_append_of_length _ _ _ (length_beBytes 4 h),
      take_append_of_length _ _ _ (length_beBytes 1 c),
      drop_append_of_length _ _ _ (length_beBytes 1 c),
      take_append_of_length _ _ _ (length_beBytes 1 b),
      drop_append_of_length _ _ _ (length_beBytes 1 b),
      take_append_of_length _ _ _ (length_beBytes 1 d),
      drop_append_of_length _ _ _ (length_beBytes 1 d),
      take_append_of_length _ _ _ (length_beBytes 1 q),
      drop_append_of_length _ _ _ (length_beBytes 1 q)]
    have e8 : List.take 8 (beBytes 8 bl) = beBytes 8 bl := by
      conv_lhs => rw [← length_beBytes 8 bl]
      exact List.take_length (beBytes 8 bl)
    have h1c : c < 256 ^ 1 := by simpa using hc
    have h1b : b < 256 ^ 1 := by simpa using hb
    have h1d : d < 256 ^ 1 := by simpa using hd
    have h1q : q < 256 ^ 1 := by simpa using hq
    simp [beValue_beBytes _ _ hw, beValue_beBytes _ _ hh,
      beValue_beBytes _ _ h1c, beValue_beBytes _ _ h1b,
      beValue_beBytes _ _ h1d, beValue_beBytes _ _ h1q,
      e8, beValue_beBytes _ _ hbl]

/-- Decomposition of a successful `muxContainer` call into its four
segments. -/
theorem muxContainer_eq (w h down quality : Nat) (base payload c : List Nat)
    (hm : muxContainer w h down quality base payload = some c) :
    ∃ hdr, packHeader w h 3 8 down quality base.length = some hdr ∧
      payload.length < 256 ^ 8 ∧
      c = hdr ++ base ++ beBytes 8 payload.length ++ payload := by
  rw [muxContainer] at hm
  cases hpk : packHeader w h 3 8 down quality base.length with
  | none => rw [hpk] at hm; simp at hm
  | some hdr =>
      rw [hpk] at hm
      by_cases hpl : payload.length < 256 ^ 8
      · rw [packBE, if_pos hpl] at hm
        simp at hm
        refine ⟨hdr, rfl, hpl, ?_⟩
        rw [← hm]; simp [List.append_assoc]
      · rw [packBE, if_neg hpl] at hm
        simp at hm

/-- C1.  For every valid input and parameters, a container produced by the
encoder begins with a 25-byte header; parsing that header reproduces
exactly the width, height, downsample factor, quality and base-layer
length that were written, with magic `"MC2v1"`, `channels = 3`,
`block_size = 8`, every multi-byte field written and read big-endian
(`beBytes`/`beValue`). -/
theorem header_roundtrip (w h down quality : Nat) (base payload c : List Nat)
    (hw : 1 ≤ w) (hh : 1 ≤ h) (hq1 : 1 ≤ quality) (hq2 : quality ≤ 100)
    (hd : 1 ≤ down)
    (hm : muxContainer w h down quality base payload = some c) :
    25 ≤ c.length ∧ c.take 5 = MAGIC ∧
      unpackHeader c =
        Except.ok ({ w := w, h := h, channels := 3, block_size := 8, down := down, quality := quality, base_len := base.length }, c.drop 25) := by
  obtain ⟨hdr, hpk, hpl, hc⟩ := muxContainer_eq w h down quality base payload c hm
  set rest : List Nat := base ++ beBytes 8 payload.length ++ payload with hrest
  have hc' : c = hdr ++ rest := by
    rw [hc, hrest]; simp [List.append_assoc]
  obtain ⟨h25, htk, hun⟩ :=
    unpackHeader_packHeader w h 3 8 down quality base.length hdr rest hpk
  have hdrop : c.drop 25 = rest := by
    rw [hc']; exact drop_append_of_length _ _ _ h25
  refine ⟨?_, ?_, ?_⟩
  · rw [hc']; simp [h25]
  · rw [hc', List.take_append_of_le_length (by rw [h25]; norm_num), htk]
  · rw [hdrop, hc']
    exact hun

/-- Witness for C1 at `w = h = 1`, `down = 2`, `quality = 50`,
a one-byte base layer and a one-byte payload. -/
theorem header_roundtrip_witness :
    25 ≤ (List.length
      ([77, 67, 50, 118, 49, 0, 0, 0, 1, 0, 0, 0, 1, 3, 8, 2, 50,
        0, 0, 0, 0, 0, 0, 0, 1, 9, 0, 0, 0, 0, 0, 0, 0, 1, 7] : List Nat)) ∧
      ([77, 67, 50, 118, 49, 0, 0, 0, 1, 0, 0, 0, 1, 3, 8, 2, 50,
        0, 0, 0, 0, 0, 0, 0, 1, 9, 0, 0, 0, 0, 0, 0, 0, 1, 7] : List Nat).take 5
        = MAGIC ∧
      unpackHeader
        [77, 67, 50, 118, 49, 0, 0, 0, 1, 0, 0, 0, 1, 3, 8, 2, 50,
          0, 0, 0, 0, 0, 0, 0, 1, 9, 0, 0, 0, 0, 0, 0, 0, 1, 7] =
        Except.ok ({ w := 1, h := 1, channels := 3, block_size := 8, down := 2, quality := 50, base_len := 1 },
          ([77, 67, 50, 118, 49, 0, 0, 0, 1, 0, 0, 0, 1, 3, 8, 2, 50,
            0, 0, 0, 0, 0, 0, 0, 1, 9, 0, 0, 0, 0, 0, 0, 0, 1, 7] :
            List Nat).drop 25) :=
  header_roundtrip 1 1 2 50 [9] [7] _ (by decide) (by decide) (by decide)
    (by decide) (by decide) (by decide)

/-- C2.  For every encoder output, the container length is exactly
`25 + base_len + 8 + payload_len`, where `base_len` is the base-layer
length recorded in the header and `payload_len` is the value of the
8-byte big-endian length field written immediately after the base-layer
bytes. -/
theorem container_length_framing (w h down quality : Nat)
    (base payload c : List Nat)
    (hm : muxContainer w h down quality base payload = some c) :
    c.length = 25 + base.length + 8 + payload.length ∧
      (∃ hd, unpackHeader c = Except.ok (hd, c.drop 25) ∧
        hd.base_len = base.length) ∧
      beValue ((c.drop (25 + base.length)).take 8) = payload.length := by
  obtain ⟨hdr, hpk, hpl, hc⟩ := muxContainer_eq w h down quality base payload c hm
  obtain ⟨h25, htk, hun⟩ :=
    unpackHeader_packHeader w h 3 8 down quality base.length hdr
      (base ++ beBytes 8 payload.length ++ payload) hpk
  have hc' : c = hdr ++ (base ++ beBytes 8 payload.length ++ payload) := by
    rw [hc]; simp [List.append_assoc]
  have hc'' : c = (hdr ++ base) ++ (beBytes 8 payload.length ++ payload) := by
    rw [hc]; simp [List.append_assoc]
  refine ⟨?_, ?_, ?_⟩
  · rw [hc]; simp [h25, length_beBytes]; omega
  · refine ⟨⟨w, h, 3, 8, down, quality, base.length⟩, ?_, rfl⟩
    have hdrop : c.drop 25 = base ++ beBytes 8 payload.length ++ payload := by
      rw [hc']; exact drop_append_of_length _ _ _ h25
    rw [hdrop, hc']
    exact hun
  · have hlen2 : (hdr ++ base).length = 25 + base.length := by simp [h25]
    rw [hc'', drop_append_of_length _ _ _ hlen2,
      take_append_of_length _ _ _ (length_beBytes 8 payload.length),
      beValue_beBytes _ _ hpl]

/-- Witness for C2 at the same concrete container as the C1 witness. -/
theorem container_length_framing_witness :
    (List.length
      ([77, 67, 50, 118, 49, 0, 0, 0, 1, 0, 0, 0, 1, 3, 8, 2, 50,
        0, 0, 0, 0, 0, 0, 0, 1, 9, 0, 0, 0, 0, 0, 0, 0, 1, 7] : List Nat)) =
        25 + 1 + 8 + 1 ∧
      (∃ hd, unpackHeader
          [77, 67, 50, 118, 49, 0, 0, 0, 1, 0, 0, 0, 1, 3, 8, 2, 50,
            0, 0, 0, 0, 0, 0, 0, 1, 9, 0, 0, 0, 0, 0, 0, 0, 1, 7] =
          Except.ok (hd,
            ([77, 67, 50, 118, 49, 0, 0, 0, 1, 0, 0, 0, 1, 3, 8, 2, 50,
              0, 0, 0, 0, 0, 0, 0, 1, 9, 0, 0, 0, 0, 0, 0, 0, 1, 7] :
              List Nat).drop 25) ∧
          hd.base_len = 1) ∧
      beValue ((([77, 67, 50, 118, 49, 0, 0, 0, 1, 0, 0, 0, 1, 3, 8, 2, 50,
        0, 0, 0, 0, 0, 0, 0, 1, 9, 0, 0, 0, 0, 0, 0, 0, 1, 7] :
        List Nat).drop (25 + 1)).take 8) = 1 :=
  container_length_framing 1 1 2 50 [9] [7] _ (by decide)

/-- C3.  `ZIGZAG_POS` is the inverse permutation of the fixed 64-entry
`ZIGZAG_IDX` table (`ZIGZAG_POS[ZIGZAG_IDX[k]] = k` for every `k < 64`),
and on every 64-entry integer vector (a row-major-flattened 8×8 block),
gathering through `ZIGZAG_POS` and then scattering through it — and vice
versa — restores the vector. -/
theorem zigzag_involution :
    (∀ k : Fin 64, ZIGZAG_POS.getD (ZIGZAG_IDX.getD k.val 0) 0 = k.val) ∧
    (∀ v : Fin 64 → ℤ, zigzagGather (zigzagScatter v) = v) ∧
    (∀ v : Fin 64 → ℤ, zigzagScatter (zigzagGather v) = v) := by
  have h1 : ∀ k : Fin 64, zigzagInvFin (zigzagPosFin k) = k := by decide
  have h2 : ∀ i : Fin 64, zigzagPosFin (zigzagInvFin i) = i := by decide
  refine ⟨by decide, ?_, ?_⟩
  · intro v; funext k
    show v (zigzagInvFin (zigzagPosFin k)) = v k
    rw [h1]
  · intro v; funext i
    show v (zigzagPosFin (zigzagInvFin i)) = v i
    rw [h2]

/-- C4.  For every quality `q ∈ [1,100]`, every cell of `quant_matrix q`
lies in `[1, 255]`, each cell is `clip(round(Q50[i,j] * scale), 1, 255)`
with `scale = 50/q` when `q < 50` and `scale = 2 - q/50` otherwise, and
`quant_matrix 100` is the all-ones matrix. -/
theorem quant_matrix_clamp (q : ℤ) (hq1 : 1 ≤ q) (hq2 : q ≤ 100) :
    (∀ row ∈ quant_matrix q, ∀ x ∈ row, 1 ≤ x ∧ x ≤ 255) ∧
    (∀ i j : Fin 8, ((quant_matrix q).getD i.val []).getD j.val 0 =
      npClip 1 255 ((npRound ((Q50.getD i.val []).getD j.val 0 *
        quantScale q) : ℤ) : ℚ)) ∧
    quantScale q = (if q < 50 then 50 / (q : ℚ) else 2 - (q : ℚ) / 50) ∧
    (∀ row ∈ quant_matrix 100, ∀ x ∈ row, x = 1) := by
  refine ⟨?_, ?_, rfl, ?_⟩
  · intro row hrow x hx
    simp only [quant_matrix, List.mem_map] at hrow
    obtain ⟨row0, _, hrow0⟩ := hrow
    subst hrow0
    simp only [List.mem_map] at hx
    obtain ⟨x0, _, hx0⟩ := hx
    subst hx0
    exact ⟨le_max_left _ _, max_le (by norm_num) (min_le_left _ _)⟩
  · intro i j
    fin_cases i <;> fin_cases j <;> rfl
  · intro row hrow x hx
    simp only [quant_matrix, List.mem_map] at hrow
    obtain ⟨row0, _, hrow0⟩ := hrow
    subst hrow0
    simp only [List.mem_map] at hx
    obtain ⟨x0, _, hx0⟩ := hx
    subst hx0
    have hscale : quantScale 100 = 0 := by norm_num [quantScale]
    have hzero : npRound 0 = 0 := by norm_num [npRound]
    rw [hscale, mul_zero, hzero]
    norm_num [npClip]

/-- Witness for C4 at `q = 50`. -/
theorem quant_matrix_clamp_witness :
    (∀ row ∈ quant_matrix 50, ∀ x ∈ row, 1 ≤ x ∧ x ≤ 255) ∧
    (∀ i j : Fin 8, ((quant_matrix 50).getD i.val []).getD j.val 0 =
      npClip 1 255 ((npRound ((Q50.getD i.val []).getD j.val 0 *
        quantScale 50) : ℤ) : ℚ)) ∧
    quantScale 50 = (if (50 : ℤ) < 50 then 50 / ((50 : ℤ) : ℚ)
      else 2 - ((50 : ℤ) : ℚ) / 50) ∧
    (∀ row ∈ quant_matrix 100, ∀ x ∈ row, x = 1) :=
  quant_matrix_clamp 50 (by norm_num) (by norm_num)

/-- C7 counterexample.  A DCT coefficient of `40000` (all-ones `Q`, as at
quality 100) rounds to `40000`, which is outside the signed 16-bit range,
yet the encoder's quantisation step does not fail: it silently wraps the
value to `-25536` and encoding continues. -/
theorem quantize_overflow_counterexample :
    quantizeBlock (fun _ _ => 40000) (fun _ _ => 1) 0 0 = -25536 ∧
    npRound ((40000 : ℚ) / 1) = 40000 ∧
    ¬ (-32768 ≤ (40000 : ℤ) ∧ (40000 : ℤ) ≤ 32767) := by
  have h40 : npRound ((40000 : ℚ) / 1) = 40000 := by norm_num [npRound]
  refine ⟨?_, h40, by norm_num⟩
  rw [quantizeBlock, h40, toInt16]
  decide

/-- C7 amended: the encoder never fails on an out-of-range quantised
coefficient; `astype(np.int16)` silently wraps modulo `2^16`, so every
emitted coefficient lies in `[-32768, 32767]` and is congruent to the
rounded value modulo `2^16`. -/
theorem quantize_wraps (d Qm : Fin 8 → Fin 8 → ℚ) (i j : Fin 8) :
    quantizeBlock d Qm i j = toInt16 (npRound (d i j / Qm i j)) ∧
    -32768 ≤ quantizeBlock d Qm i j ∧ quantizeBlock d Qm i j ≤ 32767 ∧
    quantizeBlock d Qm i j % 65536 = npRound (d i j / Qm i j) % 65536 := by
  refine ⟨rfl, ?_, ?_, ?_⟩ <;>
  · rw [quantizeBlock, toInt16]
    omega

/-- C8 counterexample.  At quality 20 the scale is `5/2` and
`Q50[2][1] = 13`, so the builder rounds the exact half `65/2`: the code
(numpy's `round`) produces `32`, while the claimed half-away-from-zero
convention would produce `33`; accordingly `quant_matrix 20` records `32`
in that cell. -/
theorem round_convention_counterexample :
    ((quant_matrix 20).getD 2 []).getD 1 0 = 32 ∧
    (Q50.getD 2 []).getD 1 0 * quantScale 20 = 65 / 2 ∧
    npRound (65 / 2) = 32 ∧
    roundHalfAwaySpec (65 / 2) = 33 := by
  have hscale : quantScale 20 = 5 / 2 := by norm_num [quantScale]
  have hfloor : ⌊(65 : ℚ) / 2⌋ = 32 := by norm_num
  have hround : npRound (65 / 2) = 32 := by
    rw [npRound, hfloor]
    norm_num
    decide
  have haway : roundHalfAwaySpec (65 / 2) = 33 := by
    rw [roundHalfAwaySpec, if_pos (by norm_num)]
    norm_num
  refine ⟨?_, by rw [hscale]; norm_num [Q50], hround, haway⟩
  have hcell : ((quant_matrix 20).getD 2 []).getD 1 0 =
      npClip 1 255 ((npRound ((13 : ℚ) * quantScale 20) : ℤ) : ℚ) := rfl
  have harg : (13 : ℚ) * (5 / 2) = 65 / 2 := by norm_num
  rw [hcell, hscale, harg, hround]
  norm_num [npClip]

/-- C8 amended: the rounding applied during quantisation (`np.round`,
modelled by `npRound`, used both in `quant_matrix` and in the encoder's
`quantizeBlock`) rounds every exact half to the nearest even integer
(banker's rounding), not away from zero. -/
theorem npRound_half_to_even (z : ℤ) :
    npRound ((z : ℚ) + 1 / 2) = (if Even z then z else z + 1) ∧
    Even (npRound ((z : ℚ) + 1 / 2)) := by
  have hfloor : ⌊(z : ℚ) + 1 / 2⌋ = z := by
    rw [add_comm, Int.floor_add_int]
    norm_num
  have hfrac : (z : ℚ) + 1 / 2 - (⌊(z : ℚ) + 1 / 2⌋ : ℚ) = 1 / 2 := by
    rw [hfloor]; ring
  rw [npRound, hfrac, hfloor, if_neg (lt_irrefl _), if_neg (lt_irrefl _)]
  refine ⟨rfl, ?_⟩
  by_cases hz : Even z
  · rw [if_pos hz]; exact hz
  · rw [if_neg hz]
    exact Int.even_add_one.mpr hz

theorem exc_bind_ok {ε α β : Type} (a : α) (f : α → Except ε β) :
    (Except.ok a >>= f) = f a := rfl

theorem exc_bind_error {ε α β : Type} (e : ε) (f : α → Except ε β) :
    ((Except.error e : Except ε α) >>= f) = Except.error e := rfl

theorem unpackHeader_magic_error (s : List Nat) (hmag : s.take 5 ≠ MAGIC) :
    unpackHeader s = Except.error "Not an MC2v1 file" := by
  rw [unpackHeader]
  simp only [readBytes]
  rw [if_pos]
  exact hmag

theorem unpackHeader_short_error (s : List Nat) (hlen : s.length < 25)
    (hmag : s.take 5 = MAGIC) :
    unpackHeader s = Except.error "unpack requires a buffer of 20 bytes" := by
  rw [unpackHeader]
  simp only [readBytes]
  rw [if_neg (by simp [hmag, MAGIC]), if_neg]
  simp only [List.length_take, List.length_drop,
    show MAGIC.length = 5 from rfl]
  omega

theorem decompress_file_of_unpack_error {Img : Type} (E : DecodeExternals Img)
    (s : List Nat) (e : String) (hu : unpackHeader s = Except.error e) :
    decompress_file E s = Except.error e := by
  rw [decompress_file, hu]
  rfl

theorem decompress_file_of_unpack_ok {Img : Type} (E : DecodeExternals Img)
    (s s1 : List Nat) (hd : Header)
    (hu : unpackHeader s = Except.ok (hd, s1)) :
    decompress_file E s =
      (reconstructPng E hd.w hd.h hd.block_size hd.quality hd.base_len s1 >>=
        fun png => Except.ok (png, { w := hd.w, h := hd.h, down := hd.down, quality := hd.quality, recon_bytes := png.length })) := by
  rw [decompress_file, hu]
  rfl

theorem packHeader_shape (w h c b d q bl : Nat) (hdr : List Nat)
    (hp : packHeader w h c b d q bl = some hdr) :
    (w < 256 ^ 4 ∧ h < 256 ^ 4 ∧ c < 256 ∧ b < 256 ∧ d < 256 ∧ q < 256 ∧
      bl < 256 ^ 8) ∧
    hdr = MAGIC ++ beBytes 4 w ++ beBytes 4 h ++ beBytes 1 c ++
      beBytes 1 b ++ beBytes 1 d ++ beBytes 1 q ++ beBytes 8 bl := by
  rw [packHeader] at hp
  split at hp
  case isTrue hrange => exact ⟨hrange, (Option.some_inj.mp hp).symm⟩
  case isFalse => exact absurd hp (by simp)

theorem beBytes_one (v : Nat) (hv : v < 256) : beBytes 1 v = [v] := by
  show beBytes 0 (v / 256) ++ [v % 256] = [v]
  rw [beBytes, Nat.mod_eq_of_lt hv]
  rfl

/-- C5 counterexample.  A 34-byte container whose channels byte is `7`
(not 3) decodes successfully: the decoder reads the channels field but
never validates or uses it, so the claimed decode error does not occur. -/
theorem channels_not_validated_counterexample :
    decompress_file trivialExternals
      [77, 67, 50, 118, 49, 0, 0, 0, 1, 0, 0, 0, 1, 7, 8, 2, 50,
        0, 0, 0, 0, 0, 0, 0, 1, 9, 0, 0, 0, 0, 0, 0, 0, 0] =
      Except.ok ([], { w := 1, h := 1, down := 2, quality := 50, recon_bytes := 0 }) := by
  rfl

/-- C5 amended.  Decoding fails when the magic differs from `"MC2v1"` or
the container is shorter than 25 bytes; but the channels field, although
read, is never validated or used: two containers that are byte-identical
except for the channels byte (offset 13) decode to identical results,
stats included (`block_size ≠ 8` and `width/height ≥ 1` are likewise not
explicitly validated by the code). -/
theorem decode_validation_amended {Img : Type} (E : DecodeExternals Img) :
    (∀ s : List Nat, s.take 5 ≠ MAGIC →
      decompress_file E s = Except.error "Not an MC2v1 file") ∧
    (∀ s : List Nat, s.length < 25 →
      ∃ msg, decompress_file E s = Except.error msg) ∧
    (∀ w h c1 c2 bs down q bl : Nat, ∀ hdr1 hdr2 rest : List Nat,
      packHeader w h c1 bs down q bl = some hdr1 →
      packHeader w h c2 bs down q bl = some hdr2 →
      (∃ pre post, pre.length = 13 ∧ hdr1 ++ rest = pre ++ c1 :: post ∧
        hdr2 ++ rest = pre ++ c2 :: post) ∧
      decompress_file E (hdr1 ++ rest) = decompress_file E (hdr2 ++ rest)) := by
  refine ⟨?_, ?_, ?_⟩
  · intro s hmag
    exact decompress_file_of_unpack_error E s _ (unpackHeader_magic_error s hmag)
  · intro s hlen
    by_cases hmag : s.take 5 = MAGIC
    · exact ⟨_, decompress_file_of_unpack_error E s _
        (unpackHeader_short_error s hlen hmag)⟩
    · exact ⟨_, decompress_file_of_unpack_error E s _
        (unpackHeader_magic_error s hmag)⟩
  · intro w h c1 c2 bs down q bl hdr1 hdr2 rest hp1 hp2
    obtain ⟨⟨_, _, hc1, hbs, hdn, hq, hbl⟩, he1⟩ :=
      packHeader_shape w h c1 bs down q bl hdr1 hp1
    obtain ⟨⟨_, _, hc2, _, _, _, _⟩, he2⟩ :=
      packHeader_shape w h c2 bs down q bl hdr2 hp2
    constructor
    · refine ⟨MAGIC ++ beBytes 4 w ++ beBytes 4 h, beBytes 1 bs ++
        beBytes 1 down ++ beBytes 1 q ++ beBytes 8 bl ++ rest, ?_, ?_, ?_⟩
      · simp [length_beBytes, MAGIC]
      · rw [he1, beBytes_one c1 hc1]
        simp [List.append_assoc]
      · rw [he2, beBytes_one c2 hc2]
        simp [List.append_assoc]
    · obtain ⟨_, _, hun1⟩ :=
        unpackHeader_packHeader w h c1 bs down q bl hdr1 rest hp1
      obtain ⟨_, _, hun2⟩ :=
        unpackHeader_packHeader w h c2 bs down q bl hdr2 rest hp2
      rw [decompress_file_of_unpack_ok E _ _ _ hun1,
        decompress_file_of_unpack_ok E _ _ _ hun2]

theorem exc_bind_eq_ok {ε α β : Type} {x : Except ε α} {f : α → Except ε β}
    {b : β} (hbind : (x >>= f) = Except.ok b) :
    ∃ a, x = Except.ok a ∧ f a = Except.ok b := by
  cases x with
  | error e => rw [exc_bind_error] at hbind; exact absurd hbind (by simp)
  | ok a => exact ⟨a, rfl, hbind⟩

theorem reconstructPng_ok_shape {Img : Type} (E : DecodeExternals Img)
    (w h bs q bl : Nat) (s png : List Nat)
    (hok : reconstructPng E w h bs q bl s = Except.ok png) :
    ∃ (up : Nat → Nat → Fin 3 → ℚ) (recR recG recB : Nat → Nat → ℚ),
      png = E.pngEncode (finalRecon up recR recG recB) w h := by
  rw [reconstructPng] at hok
  dsimp only [readBytes] at hok
  split at hok
  case isFalse => exact absurd hok (by simp)
  case isTrue hpl =>
    obtain ⟨arr, _, hok2⟩ := exc_bind_eq_ok hok
    obtain ⟨trip, _, hok3⟩ := exc_bind_eq_ok hok2
    obtain ⟨cr, cg, cb⟩ := trip
    dsimp only [] at hok3
    obtain ⟨img, _, hok4⟩ := exc_bind_eq_ok hok3
    refine ⟨E.pilResizeBicubic img w h,
      rebuild_channel E.idct2 (quantFun (q : ℤ)) bs w cr,
      rebuild_channel E.idct2 (quantFun (q : ℤ)) bs w cg,
      rebuild_channel E.idct2 (quantFun (q : ℤ)) bs w cb, ?_⟩
    exact (Except.ok.inj hok4).symm

/-- C9.  Every successfully decoded container yields a raster built by
`finalRecon`: `clip(round(upsampled_base + stack(rec_r, rec_g, rec_b)),
0, 255)` cast to unsigned 8-bit, with saturating clipping, so every
sample of the decoded image lies in `[0, 255]`. -/
theorem decode_reconstruction_clip {Img : Type} (E : DecodeExternals Img)
    (data png : List Nat) (st : DecodeStats)
    (hok : decompress_file E data = Except.ok (png, st)) :
    ∃ (up : Nat → Nat → Fin 3 → ℚ) (recR recG recB : Nat → Nat → ℚ)
      (w h : Nat),
      png = E.pngEncode (finalRecon up recR recG recB) w h ∧
      (∀ y x : Nat, ∀ ch : Fin 3, finalRecon up recR recG recB y x ch =
        (max 0 (min 255 (npRound (up y x ch +
          (if ch.val = 0 then recR y x else if ch.val = 1 then recG y x
            else recB y x))))).toNat) ∧
      (∀ y x : Nat, ∀ ch : Fin 3,
        finalRecon up recR recG recB y x ch ≤ 255) := by
  cases hu : unpackHeader data with
  | error e =>
      rw [decompress_file_of_unpack_error E data e hu] at hok
      exact absurd hok (by simp)
  | ok pair =>
      obtain ⟨hd, s1⟩ := pair
      rw [decompress_file_of_unpack_ok E data s1 hd hu] at hok
      cases hr : reconstructPng E hd.w hd.h hd.block_size hd.quality
          hd.base_len s1 with
      | error e =>
          rw [hr, exc_bind_error] at hok
          exact absurd hok (by simp)
      | ok png0 =>
          rw [hr, exc_bind_ok] at hok
          have hpng : png0 = png := by
            have := Except.ok.inj hok
            exact congrArg Prod.fst this
          subst hpng
          obtain ⟨up, recR, recG, recB, hshape⟩ :=
            reconstructPng_ok_shape E hd.w hd.h hd.block_size hd.quality
              hd.base_len s1 png0 hr
          refine ⟨up, recR, recG, recB, hd.w, hd.h, hshape,
            fun y x ch => rfl, fun y x ch => ?_⟩
          have hle : max 0 (min 255 (npRound (up y x ch +
              (if ch.val = 0 then recR y x else if ch.val = 1 then recG y x
                else recB y x)))) ≤ (255 : ℤ) :=
            max_le (by norm_num) (min_le_left _ _)
          show (max 0 (min 255 (npRound (up y x ch +
            (if ch.val = 0 then recR y x else if ch.val = 1 then recG y x
              else recB y x))))).toNat ≤ 255
          exact Int.toNat_le.mpr hle

/-- Witness for C9: the trivially-instantiated decoder succeeds on a
concrete 34-byte container (quality 50, down 2, 1×1) and the conclusion
holds there. -/
theorem decode_reconstruction_clip_witness :
    ∃ (up : Nat → Nat → Fin 3 → ℚ) (recR recG recB : Nat → Nat → ℚ)
      (w h : Nat),
      ([] : List Nat) = trivialExternals.pngEncode
        (finalRecon up recR recG recB) w h ∧
      (∀ y x : Nat, ∀ ch : Fin 3, finalRecon up recR recG recB y x ch =
        (max 0 (min 255 (npRound (up y x ch +
          (if ch.val = 0 then recR y x else if ch.val = 1 then recG y x
            else recB y x))))).toNat) ∧
      (∀ y x : Nat, ∀ ch : Fin 3,
        finalRecon up recR recG recB y x ch ≤ 255) :=
  decode_reconstruction_clip trivialExternals
    [77, 67, 50, 118, 49, 0, 0, 0, 1, 0, 0, 0, 1, 3, 8, 2, 50,
      0, 0, 0, 0, 0, 0, 0, 1, 9, 0, 0, 0, 0, 0, 0, 0, 0]
    [] { w := 1, h := 1, down := 2, quality := 50, recon_bytes := 0 }
    (by rfl)

/-- C10.  Two well-formed containers that are byte-identical except for
the value of the down byte (offset 15) decode to byte-identical PNG
rasters: the down field read from the header influences only the stats
record, never the reconstructed pixels. -/
theorem down_byte_noninterference {Img : Type} (E : DecodeExternals Img)
    (w h d1 d2 q : Nat) (base payload c1 c2 : List Nat)
    (h1 : muxContainer w h d1 q base payload = some c1)
    (h2 : muxContainer w h d2 q base payload = some c2) :
    (∃ pre post, pre.length = 15 ∧ c1 = pre ++ d1 :: post ∧
      c2 = pre ++ d2 :: post) ∧
    (decompress_file E c1).map Prod.fst =
      (decompress_file E c2).map Prod.fst := by
  obtain ⟨hdr1, hpk1, hpl1, hc1⟩ := muxContainer_eq w h d1 q base payload c1 h1
  obtain ⟨hdr2, hpk2, hpl2, hc2⟩ := muxContainer_eq w h d2 q base payload c2 h2
  obtain ⟨⟨_, _, _, _, hd1r, _, _⟩, he1⟩ :=
    packHeader_shape _ _ _ _ _ _ _ _ hpk1
  obtain ⟨⟨_, _, _, _, hd2r, _, _⟩, he2⟩ :=
    packHeader_shape _ _ _ _ _ _ _ _ hpk2
  constructor
  · refine ⟨MAGIC ++ beBytes 4 w ++ beBytes 4 h ++ beBytes 1 3 ++
      beBytes 1 8, beBytes 1 q ++ beBytes 8 base.length ++ base ++
        beBytes 8 payload.length ++ payload, ?_, ?_, ?_⟩
    · simp [length_beBytes, MAGIC]
    · rw [hc1, he1, beBytes_one d1 hd1r]
      simp [List.append_assoc]
    · rw [hc2, he2, beBytes_one d2 hd2r]
      simp [List.append_assoc]
  · have hr1 : c1 = hdr1 ++ (base ++ beBytes 8 payload.length ++ payload) := by
      rw [hc1]; simp [List.append_assoc]
    have hr2 : c2 = hdr2 ++ (base ++ beBytes 8 payload.length ++ payload) := by
      rw [hc2]; simp [List.append_assoc]
    obtain ⟨_, _, hun1⟩ := unpackHeader_packHeader w h 3 8 d1 q base.length
      hdr1 (base ++ beBytes 8 payload.length ++ payload) hpk1
    obtain ⟨_, _, hun2⟩ := unpackHeader_packHeader w h 3 8 d2 q base.length
      hdr2 (base ++ beBytes 8 payload.length ++ payload) hpk2
    rw [hr1, hr2, decompress_file_of_unpack_ok E _ _ _ hun1,
      decompress_file_of_unpack_ok E _ _ _ hun2]
    cases hr : reconstructPng E w h 8 q base.length
        (base ++ beBytes 8 payload.length ++ payload) with
    | error e => rfl
    | ok png => rfl

/-- Witness for C10 on two concrete 34-byte containers differing only at
offset 15 (down bytes 2 and 9). -/
theorem down_byte_noninterference_witness :
    (∃ pre post, pre.length = 15 ∧
      ([77, 67, 50, 118, 49, 0, 0, 0, 1, 0, 0, 0, 1, 3, 8, 2, 50,
        0, 0, 0, 0, 0, 0, 0, 1, 9, 0, 0, 0, 0, 0, 0, 0, 0] : List Nat) =
        pre ++ 2 :: post ∧
      ([77, 67, 50, 118, 49, 0, 0, 0, 1, 0, 0, 0, 1, 3, 8, 9, 50,
        0, 0, 0, 0, 0, 0, 0, 1, 9, 0, 0, 0, 0, 0, 0, 0, 0] : List Nat) =
        pre ++ 9 :: post) ∧
    (decompress_file trivialExternals
      [77, 67, 50, 118, 49, 0, 0, 0, 1, 0, 0, 0, 1, 3, 8, 2, 50,
        0, 0, 0, 0, 0, 0, 0, 1, 9, 0, 0, 0, 0, 0, 0, 0, 0]).map Prod.fst =
    (decompress_file trivialExternals
      [77, 67, 50, 118, 49, 0, 0, 0, 1, 0, 0, 0, 1, 3, 8, 9, 50,
        0, 0, 0, 0, 0, 0, 0, 1, 9, 0, 0, 0, 0, 0, 0, 0, 0]).map Prod.fst :=
  down_byte_noninterference trivialExternals 1 1 2 9 50 [9] [] _ _
    (by decide) (by decide)

/-- Witness for the C5 amended theorem at concrete inputs: a wrong first
byte, a 6-byte truncated container, and two 25-byte headers differing
only in the channels byte (7 versus 3). -/
theorem decode_validation_amended_witness :
    decompress_file trivialExternals [0, 1, 2] =
      Except.error "Not an MC2v1 file" ∧
    (∃ msg, decompress_file trivialExternals [77, 67, 50, 118, 49, 1] =
      Except.error msg) ∧
    ((∃ pre post, pre.length = 13 ∧
      ([77, 67, 50, 118, 49, 0, 0, 0, 1, 0, 0, 0, 1, 7, 8, 2, 50,
        0, 0, 0, 0, 0, 0, 0, 1] : List Nat) ++ [9] = pre ++ 7 :: post ∧
      ([77, 67, 50, 118, 49, 0, 0, 0, 1, 0, 0, 0, 1, 3, 8, 2, 50,
        0, 0, 0, 0, 0, 0, 0, 1] : List Nat) ++ [9] = pre ++ 3 :: post) ∧
    decompress_file trivialExternals
      (([77, 67, 50, 118, 49, 0, 0, 0, 1, 0, 0, 0, 1, 7, 8, 2, 50,
        0, 0, 0, 0, 0, 0, 0, 1] : List Nat) ++ [9]) =
    decompress_file trivialExternals
      (([77, 67, 50, 118, 49, 0, 0, 0, 1, 0, 0, 0, 1, 3, 8, 2, 50,
        0, 0, 0, 0, 0, 0, 0, 1] : List Nat) ++ [9])) :=
  ⟨(decode_validation_amended trivialExternals).1 [0, 1, 2] (by decide),
   (decode_validation_amended trivialExternals).2.1 [77, 67, 50, 118, 49, 1]
     (by decide),
   (decode_validation_amended trivialExternals).2.2 1 1 7 3 8 2 50 1 _ _ [9]
     (by decide) (by decide)⟩

theorem muxContainer_of_parts (w h down quality : Nat)
    (base payload hdr pl8 : List Nat)
    (hpk : packHeader w h 3 8 down quality base.length = some hdr)
    (hpl : packBE 8 payload.length = some pl8) :
    muxContainer w h down quality base payload =
      some (hdr ++ base ++ pl8 ++ payload) := by
  rw [muxContainer]
  rw [hpk, hpl]
  rfl

/-- C6 counterexample.  Encoding `"a.png"` with `down = 300` (valid by the
spec, which only requires `down ≥ 1`) fails with `struct.error` when
packing the header — after the source has already opened (and thereby
created, empty) the output file: the failed call leaves a partially
written output `""` at `"a_mc2.mcmp2"` on a file system that had no such
file, refuting both "no side effects before failure" and "a
partially-written output is never emitted". -/
theorem compress_side_effect_counterexample :
    (compress_image trivialEncodeExternals oneFileFs "a.png" 50 300).2 =
      Except.error "struct.error" ∧
    (compress_image trivialEncodeExternals oneFileFs "a.png" 50 300).1
      "a_mc2.mcmp2" = some [] ∧
    oneFileFs "a_mc2.mcmp2" = none :=
  ⟨rfl, rfl, rfl⟩

/-- C6 amended: `compress_image` is deterministic given its collaborators
but operates on the file system, not in memory: it reads the raster at
`path` and, when it succeeds, performs exactly one complete write — the
full container assembled by `muxContainer` — at the derived output path,
modifies no other path, and returns the output path and stats rather
than the container bytes.  (On the `struct.error` failure paths the
already-opened output file remains, partially written; every other
failure happens before the output file is opened and leaves the file
system unchanged.) -/
theorem compress_single_complete_write {Img : Type} (E : EncodeExternals Img)
    (fs : FileSystem) (path : String) (quality down : Nat)
    (fs2 : FileSystem) (out : String) (st : EncodeStats)
    (hok : compress_image E fs path quality down =
      (fs2, Except.ok (out, st))) :
    out = outPathOf path ∧
    ∃ w h base payload container,
      muxContainer w h down quality base payload = some container ∧
      fs2 = fsWrite fs out container ∧
      (∀ p, p ≠ out → fs2 p = fs p) := by
  rw [compress_image] at hok
  dsimp only at hok
  repeat' split at hok
  all_goals try exact Except.noConfusion (congrArg Prod.snd hok)
  rename_i x1 hdr hpk x2 pl8 hpl
  have hfs2 := congrArg Prod.fst hok
  have hsnd := congrArg Prod.snd hok
  dsimp only at hfs2 hsnd
  have hpair := Except.ok.inj hsnd
  have hout : outPathOf path = out := congrArg Prod.fst hpair
  have hmux := muxContainer_of_parts _ _ down quality _ _ _ _ hpk hpl
  refine ⟨hout.symm, _, _, _, _, _, hmux, ?_, ?_⟩
  · rw [← hfs2, hout]
  · intro p hp
    rw [← hfs2]
    have hp2 : p ≠ outPathOf path := by rw [hout]; exact hp
    simp [fsWrite, hp2]

/-- Witness for the C6 amended theorem: a concrete successful encode
(`"a.png"`, quality 50, down 2, trivial externals) whose single write is
the 33-byte container at `"a_mc2.mcmp2"`. -/
theorem compress_single_complete_write_witness :
    "a_mc2.mcmp2" = outPathOf "a.png" ∧
    ∃ w h base payload container,
      muxContainer w h 2 50 base payload = some container ∧
      fsWrite oneFileFs "a_mc2.mcmp2"
        [77, 67, 50, 118, 49, 0, 0, 0, 0, 0, 0, 0, 0, 3, 8, 2, 50,
          0, 0, 0, 0, 0, 0, 0, 0, 0, 0, 0, 0, 0, 0, 0, 0] =
        fsWrite oneFileFs "a_mc2.mcmp2" container ∧
      (∀ p, p ≠ "a_mc2.mcmp2" →
        fsWrite oneFileFs "a_mc2.mcmp2"
          [77, 67, 50, 118, 49, 0, 0, 0, 0, 0, 0, 0, 0, 3, 8, 2, 50,
            0, 0, 0, 0, 0, 0, 0, 0, 0, 0, 0, 0, 0, 0, 0, 0] p =
          oneFileFs p) :=
  compress_single_complete_write trivialEncodeExternals oneFileFs "a.png"
    50 2
    (fsWrite oneFileFs "a_mc2.mcmp2"
      [77, 67, 50, 118, 49, 0, 0, 0, 0, 0, 0, 0, 0, 3, 8, 2, 50,
        0, 0, 0, 0, 0, 0, 0, 0, 0, 0, 0, 0, 0, 0, 0, 0])
    "a_mc2.mcmp2"
    { original_bytes := 1, base_bytes := 0, payload_bytes := 0, out_bytes := 33, w := 0, h := 0, down := 2, quality := 50 }
    (by rfl)

end MC2
